import Mathlib

set_option maxHeartbeats 2000000
set_option maxRecDepth 4096

/-!
Verification development for the mini-vue reactivity core and renderer helpers.

The reactivity engine (src/reactivity/effect.ts, the reactive proxy traps, and
src/reactivity/computed.ts) is embedded as a fueled small-step interpreter over
an explicit state `St`.  Reactive targets and computed refs are identified by
`Tgt`, property keys (including the computed "value" slot and freshly allocated
symbols used by the ownKeys trap) by `PKey`.  Effect bodies are deep-embedded as
`Body` programs; running an effect, triggering a key and the proxy set/delete
traps are `Act`ions interpreted by `exec`.  The interpreter appends an event to
`St.log` whenever an effect function is invoked (`Ev.ran`), whenever `trigger`
invokes an effect's scheduler (`Ev.sched`), and whenever the computed scheduler
performs its own `trigger(this, 'value')` call (`Ev.dirtyTrig`).
-/

namespace MiniVue

abbrev EffId := Nat
abbrev Obj := Nat
abbrev Val := Int

/-- Identity of a tracking target: a raw object observed by `reactive`, or a
`ComputedRefImpl` instance (computeds track/trigger on `this`). -/
inductive Tgt where
  | obj (o : Obj)
  | comp (c : Nat)
deriving DecidableEq

/-- A dependency key: an ordinary property key, the computed `'value'` slot, or
the `n`-th freshly allocated symbol (the ownKeys trap calls
`track(target, Symbol('ownKeys'))`, allocating a new symbol each time). -/
inductive PKey where
  | prop (k : Nat)
  | value
  | sym (n : Nat)
deriving DecidableEq

/-- Observable events: an effect's wrapped function was invoked, `trigger`
invoked an effect's scheduler, or a computed's scheduler performed
`trigger(this, 'value')`. -/
inductive Ev where
  | ran (e : EffId)
  | sched (e : EffId)
  | dirtyTrig (c : Nat)
deriving DecidableEq

/-- A scheduler attached to an effect: a user-supplied callback (whose own
behavior is outside the model; invoking it is the observable event), or the
scheduler installed by `ComputedRefImpl`'s constructor. -/
inductive Sched where
  | user
  | ofComputed (c : Nat)

/-- Deep embedding of effect-function bodies.  Reads and writes go through the
reactive proxy traps; `readIf` branches on the (tracked) value read, `retRead`
reads a property and returns a function of it (a computed getter such as
`() => state.count * 2`). -/
inductive Body where
  | skip
  | readKey (o : Obj) (k : Nat) (rest : Body)
  | readIf (o : Obj) (k : Nat) (thenB elseB : Body)
  | writeKey (o : Obj) (k : Nat) (v : Val) (rest : Body)
  | delKey (o : Obj) (k : Nat) (rest : Body)
  | ownKeys (o : Obj) (rest : Body)
  | readComputed (c : Nat) (rest : Body)
  | retRead (o : Obj) (k : Nat) (f : Val → Val)

/-- State of one `ReactiveEffect`: `_fn` (as a `Body`), optional scheduler,
`active` flag, and `deps`, the list of dependency sets the effect has been
added to (a dep set is identified by its `(target, key)` pair). -/
structure EffectData where
  body : Body
  scheduler : Option Sched
  active : Bool
  deps : List (Tgt × PKey)

/-- State of one `ComputedRefImpl`: its lazy inner effect, `_dirty`, `_value`. -/
structure CompData where
  eff : EffId
  dirty : Bool
  val : Val

/-- Global interpreter state: the stores of the raw objects, the `targetMap`
dependency graph, the effect and computed registries, the `effectStack`
(head = `activeEffect`), the counter for fresh symbols, the event log, and
the value returned by the last executed function body. -/
structure St where
  store : Obj → Nat → Option Val
  deps : Tgt → PKey → List EffId
  effs : EffId → Option EffectData
  comps : Nat → Option CompData
  stack : List EffId
  nextSym : Nat
  log : List Ev
  ret : Val

/-- The empty initial state. -/
def st0 : St :=
  { store := fun _ _ => none, deps := fun _ _ => [], effs := fun _ => none,
    comps := fun _ => none, stack := [], nextSym := 0, log := [], ret := 0 }

/-- `track(target, key)` from effect.ts: no-op without an active effect;
otherwise add the active effect to the dep set and record the set on the
effect's own `deps` list (only if not already present). -/
def track (st : St) (target : Tgt) (key : PKey) : St :=
  match st.stack.head? with
  | none => st
  | some a =>
    let dep := st.deps target key
    if a ∈ dep then st
    else
      { st with
        deps := fun t k => if t = target ∧ k = key then dep ++ [a] else st.deps t k,
        effs := fun e =>
          if e = a then
            match st.effs a with
            | none => none
            | some d => some { d with deps := d.deps ++ [(target, key)] }
          else st.effs e }

/-- `cleanupEffect(effect)` from effect.ts: delete the effect from every dep
set recorded on its `deps` list, then clear that list. -/
def cleanupEffect (st : St) (e : EffId) : St :=
  match st.effs e with
  | none => st
  | some d =>
    { st with
      deps := fun t k =>
        if (t, k) ∈ d.deps then (st.deps t k).filter (fun x => x ≠ e) else st.deps t k,
      effs := fun x => if x = e then some { d with deps := [] } else st.effs x }

/-- The reactive proxy's ownKeys trap: `track(target, Symbol('ownKeys'))`.
A new symbol is allocated on every invocation. -/
def reactiveOwnKeys (st : St) (o : Obj) : St :=
  track { st with nextSym := st.nextSym + 1 } (Tgt.obj o) (PKey.sym st.nextSym)

/-- The reactive proxy's get trap for a value read: `track(target, key)` plus
the fetched value. -/
def reactiveGet (st : St) (o : Obj) (k : Nat) : St × Option Val :=
  (track st (Tgt.obj o) (PKey.prop k), st.store o k)

/-- Interpreter actions: run a body, the proxy set/delete traps, `trigger`,
the `effects.forEach` loop inside `trigger` (over the snapshot), invoking an
effect's scheduler, `ReactiveEffect.run`, and `ComputedRefImpl`'s value
getter. -/
inductive Act where
  | runB (b : Body)
  | setK (o : Obj) (k : Nat) (v : Val)
  | delK (o : Obj) (k : Nat)
  | trig (t : Tgt) (k : PKey)
  | loop (snap : List EffId)
  | schedOf (e : EffId)
  | runE (e : EffId)
  | compGet (c : Nat)

/-- One layer of the interpreter; `recur` is the interpreter at one unit of
fuel less.  Each case is a direct translation of the corresponding source
function (see the module docstring). -/
def execStep (recur : St → Act → St) (st : St) (a : Act) : St :=
  match a with
  | .runB b =>
    match b with
    | .skip => st
    | .readKey o k rest => recur (track st (.obj o) (.prop k)) (.runB rest)
    | .readIf o k bt be =>
      let st1 := track st (.obj o) (.prop k)
      if (st1.store o k).getD 0 ≠ 0 then recur st1 (.runB bt) else recur st1 (.runB be)
    | .writeKey o k v rest => recur (recur st (.setK o k v)) (.runB rest)
    | .delKey o k rest => recur (recur st (.delK o k)) (.runB rest)
    | .ownKeys o rest => recur (reactiveOwnKeys st o) (.runB rest)
    | .readComputed c rest => recur (recur st (.compGet c)) (.runB rest)
    | .retRead o k g =>
      let st1 := track st (.obj o) (.prop k)
      { st1 with ret := g ((st1.store o k).getD 0) }
  | .setK o k v =>
    let old := st.store o k
    let st1 := { st with store := fun o2 k2 => if o2 = o ∧ k2 = k then some v else st.store o2 k2 }
    if old ≠ some v then recur st1 (.trig (.obj o) (.prop k)) else st1
  | .delK o k =>
    let had := (st.store o k).isSome
    let st1 := { st with store := fun o2 k2 => if o2 = o ∧ k2 = k then none else st.store o2 k2 }
    if had then recur st1 (.trig (.obj o) (.prop k)) else st1
  | .trig t k => recur st (.loop (st.deps t k))
  | .loop snap =>
    match snap with
    | [] => st
    | e :: rest =>
      let st1 :=
        if st.stack.head? = some e then st
        else
          match st.effs e with
          | none => st
          | some d =>
            match d.scheduler with
            | some _ => recur st (.schedOf e)
            | none => recur st (.runE e)
      recur st1 (.loop rest)
  | .schedOf e =>
    match st.effs e with
    | none => st
    | some d =>
      let st1 := { st with log := st.log ++ [Ev.sched e] }
      match d.scheduler with
      | none => st1
      | some .user => st1
      | some (.ofComputed c) =>
        match st1.comps c with
        | none => st1
        | some cd =>
          if cd.dirty then st1
          else
            let st2 :=
              { st1 with
                comps := fun x => if x = c then some { cd with dirty := true } else st1.comps x,
                log := st1.log ++ [Ev.dirtyTrig c] }
            recur st2 (.trig (.comp c) .value)
  | .runE e =>
    match st.effs e with
    | none => st
    | some d =>
      if d.active then
        let st1 := { st with stack := e :: st.stack, log := st.log ++ [Ev.ran e] }
        let st2 := cleanupEffect st1 e
        let st3 := recur st2 (.runB d.body)
        { st3 with stack := st3.stack.tail }
      else
        recur { st with log := st.log ++ [Ev.ran e] } (.runB d.body)
  | .compGet c =>
    match st.comps c with
    | none => st
    | some cd =>
      let st1 := track st (.comp c) .value
      if cd.dirty then
        let st2 := recur st1 (.runE cd.eff)
        match st2.comps c with
        | none => st2
        | some cd2 =>
          { st2 with
            comps := fun x =>
              if x = c then some { cd2 with val := st2.ret, dirty := false } else st2.comps x }
      else { st1 with ret := cd.val }

/-- The fueled interpreter. -/
def exec : Nat → St → Act → St
  | 0, st, _ => st
  | f + 1, st, a => execStep (exec f) st a

/-- The reactive proxy's set trap at top level. -/
def reactiveSet (f : Nat) (st : St) (o : Obj) (k : Nat) (v : Val) : St :=
  exec f st (Act.setK o k v)

/-- The reactive proxy's deleteProperty trap at top level. -/
def reactiveDelete (f : Nat) (st : St) (o : Obj) (k : Nat) : St :=
  exec f st (Act.delK o k)

/-- `trigger(target, key)` at top level. -/
def trigger (f : Nat) (st : St) (t : Tgt) (k : PKey) : St :=
  exec f st (Act.trig t k)

/-- `ReactiveEffect.run()` at top level. -/
def effectRun (f : Nat) (st : St) (e : EffId) : St :=
  exec f st (Act.runE e)

/-- `ComputedRefImpl`'s value getter at top level. -/
def computedGet (f : Nat) (st : St) (c : Nat) : St :=
  exec f st (Act.compGet c)

/-- Number of occurrences of an event in a log. -/
def countEv (l : List Ev) (x : Ev) : Nat :=
  (l.filter (fun y => y = x)).length

/-- Number of notifications of effect `C` in a log: direct re-runs plus
scheduler invocations. -/
def notifyCount (l : List Ev) (C : EffId) : Nat :=
  countEv l (Ev.ran C) + countEv l (Ev.sched C)

/-- Predicate on an effect id: it is not currently running, all of its dep-set
memberships are under synthetic (symbol) keys, and it is not the inner effect
of any computed (so it can only ever be reached through `trigger` on a symbol
key). -/
def symOnly (st : St) (C : EffId) : Prop :=
  C ∉ st.stack ∧
  (∀ t k, C ∈ st.deps t k → ∃ n, k = PKey.sym n) ∧
  (∀ c cd, st.comps c = some cd → cd.eff ≠ C)

/-- Safety of an action with respect to an effect id `C`: the action does not
directly run `C`, schedule `C`, iterate a snapshot containing `C`, or trigger
a synthetic key. -/
def actSafe (C : EffId) : Act → Prop
  | .runE e => e ≠ C
  | .schedOf e => e ≠ C
  | .loop snap => C ∉ snap
  | .trig _ k => ∀ n, k ≠ PKey.sym n
  | _ => True

/-! ### The reactive wrapper cache (`reactive` from the reactive module)

Raw objects and proxies are identified by numeric ids; `new Proxy(target, …)`
allocates a fresh id.  `isProxy` is the `__v_isReactive` marker answered by
the get trap of every proxy this `reactive` has created; `reactiveMap` is the
target-to-proxy cache. -/

structure RegSt where
  reactiveMap : Nat → Option Nat
  isProxy : Nat → Bool
  nextId : Nat

/-- `reactive(target)` for object-valued targets: return the input if it is
already reactive, else the cached proxy if one exists, else create, mark and
cache a fresh proxy.  (The non-object diagnostic branch concerns primitive
inputs, which are outside this object-id model.) -/
def reactive (s : RegSt) (x : Nat) : RegSt × Nat :=
  if s.isProxy x then (s, x)
  else
    match s.reactiveMap x with
    | some p => (s, p)
    | none =>
      let p := s.nextId
      ({ reactiveMap := fun y => if y = x then some p else s.reactiveMap y,
         isProxy := fun y => if y = p then true else s.isProxy y,
         nextId := s.nextId + 1 }, p)

/-- Well-formedness of the wrapper cache: every marked proxy id and every raw
object id in play was allocated before `nextId`, and every cached value is a
marked proxy. -/
def RegWF (s : RegSt) : Prop :=
  (∀ p, s.isProxy p = true → p < s.nextId) ∧
  (∀ x p, s.reactiveMap x = some p → s.isProxy p = true) ∧
  (∀ x p, s.reactiveMap x = some p → x < s.nextId)

/-! ### Virtual nodes (src/runtime-core/vnode.ts) -/

/-- JS property values as they occur in prop bags (the subset needed here). -/
inductive JsVal where
  | num (n : Int)
  | str (s : String)
  | boolean (b : Bool)
  | nul
deriving DecidableEq

/-- JS truthiness of a property value. -/
def truthy : JsVal → Bool
  | .num n => decide (n ≠ 0)
  | .str s => decide (s ≠ "")
  | .boolean b => b
  | .nul => false

/-- The `type` field of a VNode: a tag string, the `Text` / `Fragment`
symbols, or a component descriptor object. -/
inductive VType where
  | tag (name : String)
  | textSym
  | fragmentSym
  | comp (id : Nat)
deriving DecidableEq

def ShapeFlags.ELEMENT : Nat := 1
def ShapeFlags.STATEFUL_COMPONENT : Nat := 2
def ShapeFlags.TEXT_CHILDREN : Nat := 4
def ShapeFlags.ARRAY_CHILDREN : Nat := 8

/-- A VNode: type, prop bag, children (null, text, or an array of nodes),
classification bitmask, identity key (null modelled as `none`), and the bound
platform node (null at construction). -/
inductive VNode where
  | mk (ty : VType) (props : Option (List (String × JsVal)))
      (children : Option (String ⊕ List VNode)) (shapeFlag : Nat)
      (key : Option JsVal) (el : Option Nat)

def VNode.ty : VNode → VType
  | .mk t _ _ _ _ _ => t

def VNode.props : VNode → Option (List (String × JsVal))
  | .mk _ p _ _ _ _ => p

def VNode.children : VNode → Option (String ⊕ List VNode)
  | .mk _ _ c _ _ _ => c

def VNode.shapeFlag : VNode → Nat
  | .mk _ _ _ s _ _ => s

def VNode.key : VNode → Option JsVal
  | .mk _ _ _ _ k _ => k

def VNode.el : VNode → Option Nat
  | .mk _ _ _ _ _ e => e

/-- `getShapeFlag(type)`: string ⇒ ELEMENT, object ⇒ STATEFUL_COMPONENT,
anything else ⇒ 0. -/
def getShapeFlag : VType → Nat
  | .tag _ => ShapeFlags.ELEMENT
  | .comp _ => ShapeFlags.STATEFUL_COMPONENT
  | _ => 0

/-- The `shapeFlag |=` step of `createVNode`: string children set
TEXT_CHILDREN, array children set ARRAY_CHILDREN. -/
def childrenFlag : Option (String ⊕ List VNode) → Nat
  | some (.inl _) => ShapeFlags.TEXT_CHILDREN
  | some (.inr _) => ShapeFlags.ARRAY_CHILDREN
  | none => 0

/-- `props?.key || null`: absent props, absent key, or a falsy key value all
yield `null`. -/
def vnodeKey : Option (List (String × JsVal)) → Option JsVal
  | none => none
  | some ps =>
    match ps.lookup "key" with
    | none => none
    | some v => if truthy v then some v else none

/-- `createVNode(type, props, children)` from vnode.ts. -/
def createVNode (ty : VType) (props : Option (List (String × JsVal)))
    (children : Option (String ⊕ List VNode)) : VNode :=
  VNode.mk ty props children (getShapeFlag ty ||| childrenFlag children)
    (vnodeKey props) none

/-- `isSameVNodeType(n1, n2)`: `n1.type === n2.type && n1.key === n2.key`. -/
def isSameVNodeType (n1 n2 : VNode) : Bool :=
  decide (n1.ty = n2.ty) && decide (n1.key = n2.key)

/-! ### The keyed child-list diff

`renderer.ts` itself is not under src/; only its callers, declarations and
the repository documentation are.  The algorithm below is therefore modelled
from the spec (§4.6 "Keyed list diff") and the identical code listings in the
repository docs, at the granularity of the adapter-visible actions: `patch`
(in-place reuse of the existing platform node), `mount`, and `unmount`.
Anchor computation, which only chooses the insertion position of mounted
nodes, is not modelled. -/

inductive DiffAct where
  | patch (n1 n2 : VNode)
  | mount (n : VNode)
  | unmount (n : VNode)

/-- Modelled from the spec: step 1 of the keyed diff, the head loop — while
`i <= e1 && i <= e2` and the nodes at `i` are the same type, patch them in
place and advance `i`. Returns the final `i` and the emitted actions. -/
def headLoop (c1 c2 : List VNode) (i : Nat) (e1 e2 : Int) : Nat × List DiffAct :=
  if _h : (i : Int) ≤ e1 ∧ (i : Int) ≤ e2 then
    match c1[i]?, c2[i]? with
    | some n1, some n2 =>
      if isSameVNodeType n1 n2 then
        let r := headLoop c1 c2 (i + 1) e1 e2
        (r.1, DiffAct.patch n1 n2 :: r.2)
      else (i, [])
    | _, _ => (i, [])
  else (i, [])
termination_by (e1 + 1 - (i : Int)).toNat
decreasing_by simp_wf; omega

/-- Modelled from the spec: step 2 of the keyed diff, the tail loop — while
`i <= e1 && i <= e2` and the nodes at `e1`/`e2` are the same type, patch them
in place and decrement both ends.  Returns the final `e1`, `e2` and the
emitted actions. -/
def tailLoop (c1 c2 : List VNode) (i : Nat) (e1 e2 : Int) : Int × Int × List DiffAct :=
  if _h : (i : Int) ≤ e1 ∧ (i : Int) ≤ e2 then
    match c1[e1.toNat]?, c2[e2.toNat]? with
    | some n1, some n2 =>
      if isSameVNodeType n1 n2 then
        let r := tailLoop c1 c2 i (e1 - 1) (e2 - 1)
        (r.1, r.2.1, DiffAct.patch n1 n2 :: r.2.2)
      else (e1, e2, [])
    | _, _ => (e1, e2, [])
  else (e1, e2, [])
termination_by (e1 + 1 - (i : Int)).toNat
decreasing_by simp_wf; omega

/-- Modelled from the spec: mounting of the remaining new nodes
(`patch(null, c2[i], …)` for `i` through `e2`). -/
def mountRange (c2 : List VNode) (i : Nat) (e2 : Int) : List DiffAct :=
  if _h : (i : Int) ≤ e2 then
    (match c2[i]? with
     | some n => [DiffAct.mount n]
     | none => []) ++ mountRange c2 (i + 1) e2
  else []
termination_by (e2 + 1 - (i : Int)).toNat
decreasing_by simp_wf; omega

/-- Modelled from the spec: unmounting of the remaining old nodes
(`unmount(c1[i])` for `i` through `e1`). -/
def unmountRange (c1 : List VNode) (i : Nat) (e1 : Int) : List DiffAct :=
  if _h : (i : Int) ≤ e1 then
    (match c1[i]? with
     | some n => [DiffAct.unmount n]
     | none => []) ++ unmountRange c1 (i + 1) e1
  else []
termination_by (e1 + 1 - (i : Int)).toNat
decreasing_by simp_wf; omega

/-- Modelled from the spec: `patchKeyedChildren(c1, c2, container)` — head
loop, tail loop, then mount the leftover new range, or unmount the leftover
old range, or (unresolved middle) unmount every remaining old node and mount
every remaining new node. -/
def patchKeyedChildren (c1 c2 : List VNode) : List DiffAct :=
  let e1 : Int := (c1.length : Int) - 1
  let e2 : Int := (c2.length : Int) - 1
  let hd := headLoop c1 c2 0 e1 e2
  let i := hd.1
  let tl := tailLoop c1 c2 i e1 e2
  let e1h := tl.1
  let e2h := tl.2.1
  hd.2 ++ tl.2.2 ++
    (if (i : Int) > e1h then
      (if (i : Int) ≤ e2h then mountRange c2 i e2h else [])
    else if (i : Int) > e2h then unmountRange c1 i e1h
    else unmountRange c1 i e1h ++ mountRange c2 i e2h)

/-! ### Lifecycle hooks (injectHook / callHook) -/

/-- The behavior of a registered raw hook when invoked: it either performs its
work (summarized as a numeric mark) or throws. -/
inductive HookBody where
  | ok (mark : Nat)
  | throws (err : String)

/-- A console/work entry produced while running hooks. -/
inductive Entry where
  | mark (m : Nat)
  | errorLog (msg : String) (err : String)
deriving DecidableEq

/-- Invoking a raw hook: exception semantics made explicit. -/
def hookCall : HookBody → Except String Entry
  | .ok m => .ok (.mark m)
  | .throws e => .error e

/-- The wrapper `injectHook` installs around each hook:
`try { hook() } catch (err) { console.error('Error in <type> hook:', err) }`. -/
def wrappedRun (ty : String) (h : HookBody) : Except String Entry :=
  match hookCall h with
  | .ok en => .ok en
  | .error err => .ok (.errorLog ("Error in " ++ ty ++ " hook:") err)

/-- `injectHook(type, hook, target)` for a resolved instance: push the wrapped
hook onto the instance's hook list for that phase. -/
def injectHook (ty : String) (h : HookBody) (hooks : List (Except String Entry)) :
    List (Except String Entry) :=
  hooks ++ [wrappedRun ty h]

/-- `callHook(instance, type)`: `hooks.forEach(hook => hook())`, with an
uncaught exception aborting the remaining hooks and propagating. -/
def callHook : List (Except String Entry) → Except String (List Entry)
  | [] => .ok []
  | h :: rest =>
    match h with
    | .error e => .error e
    | .ok en =>
      match callHook rest with
      | .error e => .error e
      | .ok l => .ok (en :: l)

/-- The log the spec predicts for one phase: each hook contributes its work,
a throwing hook contributes an error entry naming the phase. -/
def hookLog (ty : String) (hs : List HookBody) : List Entry :=
  hs.map (fun h =>
    match h with
    | .ok m => Entry.mark m
    | .throws err => Entry.errorLog ("Error in " ++ ty ++ " hook:") err)

/-! ### Concrete scenario states -/

/-- A state in which effect 0 is subscribed to property 0 of object 0 (it read
it during its last run), is not running, and the property currently holds 5. -/
def stC1 : St :=
  { st0 with
    store := fun o k => if o = 0 ∧ k = 0 then some 5 else none,
    deps := fun t k => if t = Tgt.obj 0 ∧ k = PKey.prop 0 then [0] else [],
    effs := fun e =>
      if e = 0 then
        some { body := Body.skip, scheduler := none, active := true,
               deps := [(Tgt.obj 0, PKey.prop 0)] }
      else none }

/-- Effect 0 reads object 0's property 0 and, if it is nonzero, also reads
property 1 (a conditional branch); property 0 starts at 1 (branch taken). -/
def stBranch (v1 : Val) : St :=
  { st0 with
    store := fun o k =>
      if o = 0 ∧ k = 0 then some 1 else if o = 0 ∧ k = 1 then some v1 else none,
    effs := fun e =>
      if e = 0 then
        some { body := Body.readIf 0 0 (Body.readKey 0 1 Body.skip) Body.skip,
               scheduler := none, active := true, deps := [] }
      else none }

/-- Run N of the branching effect: both properties are read. -/
def branchRun1 (v1 : Val) : St := effectRun 40 (stBranch v1) 0

/-- Writing 0 to the condition property re-runs the effect (run N+1), which
now reads only the condition. -/
def branchRun2 (v1 : Val) : St := reactiveSet 40 (branchRun1 v1) 0 0 0

/-- A subsequent write to property 1 (the stale dependency). -/
def branchWrite (v1 w : Val) : St := reactiveSet 40 (branchRun2 v1) 0 1 w

/-- Computed 0 over getter `() => g(state0.prop0)`, with the property starting
at `a`; the computed starts dirty and its lazy inner effect is effect 0. -/
def stComp (g : Val → Val) (a : Val) : St :=
  { st0 with
    store := fun o k => if o = 0 ∧ k = 0 then some a else none,
    effs := fun e =>
      if e = 0 then
        some { body := Body.retRead 0 0 g, scheduler := some (Sched.ofComputed 0),
               active := true, deps := [] }
      else none,
    comps := fun c =>
      if c = 0 then some { eff := 0, dirty := true, val := 0 } else none }

/-- First read of the computed (computes and caches). -/
def compRead1 (g : Val → Val) (a : Val) : St := computedGet 30 (stComp g a) 0

/-- Second read with no intervening dependency change. -/
def compRead2 (g : Val → Val) (a : Val) : St := computedGet 30 (compRead1 g a) 0

/-- A dependency change after the two reads. -/
def compWrite (g : Val → Val) (a b : Val) : St := reactiveSet 30 (compRead2 g a) 0 0 b

/-- Read after the dependency change. -/
def compRead3 (g : Val → Val) (a b : Val) : St := computedGet 30 (compWrite g a b) 0

/-- First upstream notification after a clean read: write `b` over `a`. -/
def coalesceW1 (g : Val → Val) (a b : Val) : St := reactiveSet 30 (compRead1 g a) 0 0 b

/-- Second upstream notification while the computed is already dirty. -/
def coalesceW2 (g : Val → Val) (a b c : Val) : St := reactiveSet 30 (coalesceW1 g a b) 0 0 c

/-- Effect 0 reads object 0's property 0 and then writes `v1` to that very
property from inside its own execution. -/
def stSelf (v0 v1 : Val) : St :=
  { st0 with
    store := fun o k => if o = 0 ∧ k = 0 then some v0 else none,
    effs := fun e =>
      if e = 0 then
        some { body := Body.readKey 0 0 (Body.writeKey 0 0 v1 Body.skip),
               scheduler := none, active := true, deps := [] }
      else none }

/-- Running the self-writing effect. -/
def selfRun (v0 v1 : Val) : St := effectRun 30 (stSelf v0 v1) 0

/-- Effect 0 enumerates object 0's own keys; the object has property 3. -/
def stEnum : St :=
  { st0 with
    store := fun o k => if o = 0 ∧ k = 3 then some 7 else none,
    effs := fun e =>
      if e = 0 then
        some { body := Body.ownKeys 0 Body.skip, scheduler := none,
               active := true, deps := [] }
      else none }

/-- Run of the enumerating effect: it subscribes under the fresh symbol 0. -/
def enumRun : St := effectRun 20 stEnum 0

/-- A key addition (property 5 did not exist before). -/
def enumAdd : St := reactiveSet 20 enumRun 0 5 1

/-- A key removal (property 3 existed). -/
def enumDel : St := reactiveDelete 20 enumAdd 0 3

/-- A state in which effect 0 is subscribed only under the synthetic key
`sym 0` of object 0. -/
def stSym : St :=
  { st0 with deps := fun t k => if t = Tgt.obj 0 ∧ k = PKey.sym 0 then [0] else [] }

/-- A wrapper-cache state with no proxies and one raw object id 0. -/
def regW : RegSt :=
  { reactiveMap := fun _ => none, isProxy := fun _ => false, nextId := 1 }

theorem exec_eq (f : Nat) (st : St) (a : Act) :
    exec f st a = if f = 0 then st else execStep (exec (f - 1)) st a := by
  cases f <;> simp [exec]

theorem isSameVNodeType_self (n : VNode) : isSameVNodeType n n = true := by
  simp [isSameVNodeType]

/-- Claim C10: `createVNode` derives the node key from `props.key` with a
truthiness test, so every falsy key (0, empty string, false) is stored as
null; consequently `isSameVNodeType` treats a node keyed 0, a node keyed '',
and an unkeyed node of the same type as the same identity for diffing. -/
theorem falsy_key_identity :
    (∀ (ps : List (String × JsVal)) (v : JsVal) (ty : VType)
        (ch : Option (String ⊕ List VNode)),
      ps.lookup "key" = some v → truthy v = false →
      (createVNode ty (some ps) ch).key = none) ∧
    (∀ (ty : VType) (c1 c2 c3 : Option (String ⊕ List VNode)),
      (createVNode ty (some [("key", JsVal.num 0)]) c1).key = none ∧
      (createVNode ty (some [("key", JsVal.str "")]) c2).key = none ∧
      (createVNode ty (some [("key", JsVal.boolean false)]) c3).key = none ∧
      (createVNode ty none c3).key = none ∧
      isSameVNodeType (createVNode ty (some [("key", JsVal.num 0)]) c1)
        (createVNode ty (some [("key", JsVal.str "")]) c2) = true ∧
      isSameVNodeType (createVNode ty (some [("key", JsVal.num 0)]) c1)
        (createVNode ty none c3) = true ∧
      isSameVNodeType (createVNode ty (some [("key", JsVal.str "")]) c2)
        (createVNode ty none c3) = true) := by
  constructor
  · intro ps v ty ch hv ht
    simp [createVNode, vnodeKey, hv, ht, VNode.key]
  · intro ty c1 c2 c3
    refine ⟨?_, ?_, ?_, ?_, ?_, ?_, ?_⟩ <;>
      simp [createVNode, vnodeKey, truthy, isSameVNodeType, VNode.key, VNode.ty,
        List.lookup]

/-- Witness for C10: a node keyed `0` gets the `null` key. -/
theorem falsy_key_identity_witness :
    (createVNode (VType.tag "li") (some [("key", JsVal.num 0)]) none).key = none :=
  falsy_key_identity.1 [("key", JsVal.num 0)] (JsVal.num 0) (VType.tag "li") none
    (by decide) (by decide)

/-- Claim C8: reactive wrapping is idempotent and memoized — for every object
x, `reactive(x) === reactive(x)` (the same proxy and unchanged cache on the
second call), and `reactive(reactive(x)) === reactive(x)`. -/
theorem reactive_wrap_idempotent (s : RegSt) (x : Nat) (hwf : RegWF s)
    (hx : x < s.nextId) :
    reactive (reactive s x).1 x = reactive s x ∧
    reactive (reactive s x).1 (reactive s x).2 = reactive s x := by
  obtain ⟨h1, h2, h3⟩ := hwf
  by_cases hp : s.isProxy x
  · constructor <;> simp [reactive, hp]
  · cases hm : s.reactiveMap x with
    | some p =>
      have hpp := h2 x p hm
      constructor <;> simp [reactive, hp, hm, hpp]
    | none =>
      have hxne : x ≠ s.nextId := Nat.ne_of_lt hx
      constructor
      · simp [reactive, hp, hm, hxne]
      · simp [reactive, hp, hm, hxne]

/-- Witness for C8: wrapping object 0 in the empty cache, twice. -/
theorem reactive_wrap_idempotent_witness :
    reactive (reactive regW 0).1 0 = reactive regW 0 ∧
    reactive (reactive regW 0).1 (reactive regW 0).2 = reactive regW 0 :=
  reactive_wrap_idempotent regW 0
    ⟨fun p h => by simp [regW] at h, fun x p h => by simp [regW] at h,
     fun x p h => by simp [regW] at h⟩
    (by decide)

theorem injectHook_foldl (ty : String) (hs : List HookBody)
    (acc : List (Except String Entry)) :
    hs.foldl (fun l h => injectHook ty h l) acc = acc ++ hs.map (wrappedRun ty) := by
  induction hs generalizing acc with
  | nil => simp
  | cons h t ih =>
    rw [List.foldl_cons, ih (injectHook ty h acc)]
    simp [injectHook]

theorem callHook_map (ty : String) (hs : List HookBody) :
    callHook (hs.map (wrappedRun ty)) = Except.ok (hookLog ty hs) := by
  induction hs with
  | nil => rfl
  | cons h t ih =>
    cases h <;> simp [callHook, hookLog, wrappedRun, hookCall, ih]

/-- Claim C9: an exception thrown by a registered lifecycle hook is caught by
the wrapper installed at registration and logged with the phase identified;
it does not propagate, so `callHook` completes normally and every sibling
hook of the phase still contributes its entry (hence the surrounding
mount/update/unmount sequence continues). -/
theorem hook_errors_contained (ty : String) (hs : List HookBody) :
    callHook (hs.foldl (fun l h => injectHook ty h l) []) =
      Except.ok (hookLog ty hs) := by
  rw [injectHook_foldl]
  simpa using callHook_map ty hs

theorem track_stack (st : St) (t : Tgt) (k : PKey) :
    (track st t k).stack = st.stack := by
  unfold track
  cases st.stack.head? <;> simp
  split <;> simp

theorem cleanupEffect_stack (st : St) (e : EffId) :
    (cleanupEffect st e).stack = st.stack := by
  unfold cleanupEffect
  cases st.effs e <;> simp

theorem track_log (st : St) (t : Tgt) (k : PKey) :
    (track st t k).log = st.log := by
  unfold track
  cases st.stack.head? <;> simp
  split <;> simp

theorem cleanupEffect_log (st : St) (e : EffId) :
    (cleanupEffect st e).log = st.log := by
  unfold cleanupEffect
  cases st.effs e <;> simp

theorem track_effs_isSome (st : St) (t : Tgt) (k : PKey) (e : EffId) :
    ((track st t k).effs e).isSome = (st.effs e).isSome := by
  unfold track
  cases st.stack.head? with
  | none => rfl
  | some a =>
    simp only
    split
    · rfl
    · simp only
      by_cases he : e = a
      · subst he
        cases st.effs e <;> simp
      · simp [he]

theorem cleanupEffect_effs_isSome (st : St) (e : EffId) (x : EffId) :
    ((cleanupEffect st e).effs x).isSome = (st.effs x).isSome := by
  unfold cleanupEffect
  cases hd : st.effs e with
  | none => rfl
  | some d =>
    simp only
    by_cases hx : x = e
    · subst hx
      simp [hd]
    · simp [hx]

theorem execStep_stack (recur : St → Act → St)
    (hr : ∀ st a, (recur st a).stack = st.stack) (st : St) (a : Act) :
    (execStep recur st a).stack = st.stack := by
  cases a with
  | runB b =>
    cases b with
    | skip => rfl
    | readKey o k rest => rw [execStep, hr, track_stack]
    | readIf o k bt be =>
      simp only [execStep]
      split <;> rw [hr, track_stack]
    | writeKey o k v rest => rw [execStep, hr, hr]
    | delKey o k rest => rw [execStep, hr, hr]
    | ownKeys o rest => rw [execStep, hr, reactiveOwnKeys, track_stack]
    | readComputed c rest => rw [execStep, hr, hr]
    | retRead o k g =>
      show (track st (Tgt.obj o) (PKey.prop k)).stack = st.stack
      rw [track_stack]
  | setK o k v =>
    simp only [execStep]
    split
    · rw [hr]
    · rfl
  | delK o k =>
    simp only [execStep]
    split
    · rw [hr]
    · rfl
  | trig t k => rw [execStep, hr]
  | loop snap =>
    cases snap with
    | nil => rfl
    | cons e rest =>
      simp only [execStep]
      rw [hr]
      split
      · rfl
      · split
        · rfl
        · split <;> rw [hr]
  | schedOf e =>
    simp only [execStep]
    split
    · rfl
    · split
      · rfl
      · rfl
      · split
        · rfl
        · split
          · rfl
          · rw [hr]
  | runE e =>
    simp only [execStep]
    split
    · rfl
    · split
      · rw [hr, cleanupEffect_stack]
        rfl
      · rw [hr]
  | compGet c =>
    simp only [execStep]
    split
    · rfl
    · split
      · split
        · rw [hr, track_stack]
        · rw [hr, track_stack]
      · show (track st (Tgt.comp c) PKey.value).stack = st.stack
        rw [track_stack]

theorem exec_stack (f : Nat) (st : St) (a : Act) : (exec f st a).stack = st.stack := by
  induction f generalizing st a with
  | zero => rfl
  | succ g ih => exact execStep_stack (exec g) ih st a

theorem execStep_log (recur : St → Act → St)
    (hr : ∀ st a, st.log <+: (recur st a).log) (st : St) (a : Act) :
    st.log <+: (execStep recur st a).log := by
  cases a with
  | runB b =>
    cases b with
    | skip => exact List.prefix_refl _
    | readKey o k rest =>
      have h2 := hr (track st (.obj o) (.prop k)) (.runB rest)
      rw [track_log] at h2
      exact h2
    | readIf o k bt be =>
      simp only [execStep]
      split
      · have h2 := hr (track st (.obj o) (.prop k)) (.runB bt)
        rw [track_log] at h2
        exact h2
      · have h2 := hr (track st (.obj o) (.prop k)) (.runB be)
        rw [track_log] at h2
        exact h2
    | writeKey o k v rest =>
      exact (hr st (.setK o k v)).trans (hr _ (.runB rest))
    | delKey o k rest =>
      exact (hr st (.delK o k)).trans (hr _ (.runB rest))
    | ownKeys o rest =>
      have h2 := hr (reactiveOwnKeys st o) (.runB rest)
      rw [reactiveOwnKeys, track_log] at h2
      exact h2
    | readComputed c rest =>
      exact (hr st (.compGet c)).trans (hr _ (.runB rest))
    | retRead o k g =>
      show st.log <+: (track st (Tgt.obj o) (PKey.prop k)).log
      rw [track_log]
  | setK o k v =>
    simp only [execStep]
    split
    · exact hr { st with store := fun o2 k2 => if o2 = o ∧ k2 = k then some v else st.store o2 k2 } (Act.trig (Tgt.obj o) (PKey.prop k))
    · exact List.prefix_refl _
  | delK o k =>
    simp only [execStep]
    split
    · exact hr { st with store := fun o2 k2 => if o2 = o ∧ k2 = k then none else st.store o2 k2 } (Act.trig (Tgt.obj o) (PKey.prop k))
    · exact List.prefix_refl _
  | trig t k => exact hr _ _
  | loop snap =>
    cases snap with
    | nil => exact List.prefix_refl _
    | cons e rest =>
      simp only [execStep]
      refine List.IsPrefix.trans ?_ (hr _ (.loop rest))
      split
      · exact List.prefix_refl _
      · split
        · exact List.prefix_refl _
        · split <;> exact hr _ _
  | schedOf e =>
    simp only [execStep]
    split
    · exact List.prefix_refl _
    · split
      · exact List.prefix_append _ _
      · exact List.prefix_append _ _
      · split
        · exact List.prefix_append _ _
        · split
          · exact List.prefix_append _ _
          · refine List.IsPrefix.trans ?_ (hr _ _)
            exact (List.prefix_append _ _).trans (List.prefix_append _ _)
  | runE e =>
    simp only [execStep]
    split
    · exact List.prefix_refl _
    next d _ =>
      split
      · have h2 := hr (cleanupEffect { st with stack := e :: st.stack, log := st.log ++ [Ev.ran e] } e) (Act.runB d.body)
        rw [cleanupEffect_log] at h2
        exact (List.prefix_append st.log [Ev.ran e]).trans h2
      · have h2 := hr { st with log := st.log ++ [Ev.ran e] } (Act.runB d.body)
        exact (List.prefix_append st.log [Ev.ran e]).trans h2
  | compGet c =>
    simp only [execStep]
    split
    · exact List.prefix_refl _
    next cd _ =>
      split
      · have h2 := hr (track st (Tgt.comp c) PKey.value) (Act.runE cd.eff)
        rw [track_log] at h2
        split
        · exact h2
        · exact h2
      · show st.log <+: (track st (Tgt.comp c) PKey.value).log
        rw [track_log]

theorem exec_log (f : Nat) (st : St) (a : Act) : st.log <+: (exec f st a).log := by
  induction f generalizing st a with
  | zero => exact List.prefix_refl _
  | succ g ih => exact execStep_log (exec g) ih st a

theorem exec_log_mem (f : Nat) (st : St) (a : Act) (ev : Ev) (h : ev ∈ st.log) :
    ev ∈ (exec f st a).log :=
  (exec_log f st a).subset h

theorem execStep_effs_isSome (recur : St → Act → St)
    (hr : ∀ st a x, (st.effs x).isSome → ((recur st a).effs x).isSome)
    (st : St) (a : Act) (x : EffId) (h : (st.effs x).isSome) :
    ((execStep recur st a).effs x).isSome := by
  cases a with
  | runB b =>
    cases b with
    | skip => exact h
    | readKey o k rest =>
      refine hr _ _ x ?_
      rw [track_effs_isSome]
      exact h
    | readIf o k bt be =>
      simp only [execStep]
      split <;> (refine hr _ _ x ?_; rw [track_effs_isSome]; exact h)
    | writeKey o k v rest =>
      refine hr _ _ x ?_
      refine hr _ _ x ?_
      exact h
    | delKey o k rest =>
      refine hr _ _ x ?_
      refine hr _ _ x ?_
      exact h
    | ownKeys o rest =>
      refine hr _ _ x ?_
      rw [reactiveOwnKeys, track_effs_isSome]
      exact h
    | readComputed c rest =>
      refine hr _ _ x ?_
      refine hr _ _ x ?_
      exact h
    | retRead o k g =>
      show ((track st (Tgt.obj o) (PKey.prop k)).effs x).isSome
      rw [track_effs_isSome]
      exact h
  | setK o k v =>
    simp only [execStep]
    split
    · refine hr _ _ x ?_
      exact h
    · exact h
  | delK o k =>
    simp only [execStep]
    split
    · refine hr _ _ x ?_
      exact h
    · exact h
  | trig t k =>
    refine hr _ _ x ?_
    exact h
  | loop snap =>
    cases snap with
    | nil => exact h
    | cons e rest =>
      simp only [execStep]
      refine hr _ _ x ?_
      split
      · exact h
      · split
        · exact h
        · split <;> (refine hr _ _ x ?_; exact h)
  | schedOf e =>
    simp only [execStep]
    split
    · exact h
    · split
      · exact h
      · exact h
      · split
        · exact h
        · split
          · exact h
          · refine hr _ _ x ?_
            exact h
  | runE e =>
    simp only [execStep]
    split
    · exact h
    · split
      · refine hr _ _ x ?_
        rw [cleanupEffect_effs_isSome]
        exact h
      · refine hr _ _ x ?_
        exact h
  | compGet c =>
    simp only [execStep]
    split
    · exact h
    next cd _ =>
      split
      · have h2 : ((recur (track st (Tgt.comp c) PKey.value) (Act.runE cd.eff)).effs x).isSome := by
          refine hr _ _ x ?_
          rw [track_effs_isSome]
          exact h
        split
        · exact h2
        · exact h2
      · show ((track st (Tgt.comp c) PKey.value).effs x).isSome
        rw [track_effs_isSome]
        exact h

theorem exec_effs_isSome (f : Nat) (st : St) (a : Act) (x : EffId)
    (h : (st.effs x).isSome) : ((exec f st a).effs x).isSome := by
  induction f generalizing st a x with
  | zero => exact h
  | succ g ih => exact execStep_effs_isSome (exec g) ih st a x h

theorem sched_log_mem (f : Nat) (st : St) (e : EffId) (d : EffectData)
    (heff : st.effs e = some d) (hf : 1 ≤ f) :
    Ev.sched e ∈ (exec f st (Act.schedOf e)).log := by
  obtain ⟨g, rfl⟩ : ∃ g, f = g + 1 := ⟨f - 1, by omega⟩
  show Ev.sched e ∈ (execStep (exec g) st (Act.schedOf e)).log
  simp only [execStep, heff]
  split
  · simp
  · simp
  · split
    · simp
    · split
      · simp
      · refine exec_log_mem g _ _ _ ?_
        simp

theorem ran_log_mem (f : Nat) (st : St) (e : EffId) (d : EffectData)
    (heff : st.effs e = some d) (hf : 1 ≤ f) :
    Ev.ran e ∈ (exec f st (Act.runE e)).log := by
  obtain ⟨g, rfl⟩ : ∃ g, f = g + 1 := ⟨f - 1, by omega⟩
  show Ev.ran e ∈ (execStep (exec g) st (Act.runE e)).log
  simp only [execStep, heff]
  split
  · have h2 := exec_log g (cleanupEffect { st with stack := e :: st.stack, log := st.log ++ [Ev.ran e] } e) (Act.runB d.body)
    rw [cleanupEffect_log] at h2
    exact h2.subset (by simp)
  · refine exec_log_mem g _ _ _ ?_
    simp

theorem loop_notifies (l1 : List EffId) : ∀ (f : Nat) (st : St) (C : EffId)
    (l2 snap : List EffId), snap = l1 ++ C :: l2 → C ∉ st.stack →
    (st.effs C).isSome → l1.length + 2 ≤ f →
    Ev.ran C ∈ (exec f st (Act.loop snap)).log ∨
    Ev.sched C ∈ (exec f st (Act.loop snap)).log := by
  induction l1 with
  | nil =>
    intro f st C l2 snap hsnap hstk heff hf
    subst hsnap
    obtain ⟨g, rfl⟩ : ∃ g, f = g + 1 := ⟨f - 1, by omega⟩
    have hhead : ¬ st.stack.head? = some C := by
      intro hh
      exact hstk (List.mem_of_mem_head? hh)
    obtain ⟨d, hd⟩ := Option.isSome_iff_exists.mp heff
    show Ev.ran C ∈ (execStep (exec g) st (Act.loop ([] ++ C :: l2))).log ∨
      Ev.sched C ∈ (execStep (exec g) st (Act.loop ([] ++ C :: l2))).log
    simp only [List.nil_append, execStep, hhead, if_false, hd]
    split
    · right
      refine exec_log_mem g _ _ _ ?_
      exact sched_log_mem g st C d hd (by omega)
    · left
      refine exec_log_mem g _ _ _ ?_
      exact ran_log_mem g st C d hd (by omega)
  | cons e t ih =>
    intro f st C l2 snap hsnap hstk heff hf
    subst hsnap
    obtain ⟨g, rfl⟩ : ∃ g, f = g + 1 := ⟨f - 1, by omega⟩
    have key : ∀ st1 : St, st1.stack = st.stack → (st1.effs C).isSome →
        (Ev.ran C ∈ (exec g st1 (Act.loop (t ++ C :: l2))).log ∨
         Ev.sched C ∈ (exec g st1 (Act.loop (t ++ C :: l2))).log) := by
      intro st1 h1 h2
      refine ih g st1 C l2 _ rfl ?_ h2 (by simp only [List.length_cons] at hf; omega)
      rw [h1]
      exact hstk
    show Ev.ran C ∈ (execStep (exec g) st (Act.loop ((e :: t) ++ C :: l2))).log ∨
      Ev.sched C ∈ (execStep (exec g) st (Act.loop ((e :: t) ++ C :: l2))).log
    simp only [List.cons_append, execStep]
    split
    · exact key st rfl heff
    · split
      · exact key st rfl heff
      · split
        · exact key _ (exec_stack g st (Act.schedOf e)) (exec_effs_isSome g st _ C heff)
        · exact key _ (exec_stack g st (Act.runE e)) (exec_effs_isSome g st _ C heff)

theorem track_subscribes (s : St) (t : Tgt) (k : PKey) (C : EffId)
    (h : s.stack.head? = some C) : C ∈ (track s t k).deps t k := by
  unfold track
  rw [h]
  simp only
  split
  · assumption
  · simp

/-- Claim C1: if computation `C` reads `O.K` during a run of `C` (so that it is
subscribed to `(O, K)` and not currently running), then an assignment of a
different value to `O.K` re-runs `C` or invokes `C`'s scheduler, while an
assignment of the same value produces no notification at all (the event log is
unchanged). -/
theorem track_trigger_closure (f : Nat) (st : St) (o k : Nat) (v : Val) (C : EffId)
    (hmem : C ∈ st.deps (Tgt.obj o) (PKey.prop k))
    (hstk : C ∉ st.stack)
    (heff : (st.effs C).isSome)
    (hf : (st.deps (Tgt.obj o) (PKey.prop k)).length + 4 ≤ f) :
    (∀ s : St, s.stack.head? = some C →
      C ∈ (reactiveGet s o k).1.deps (Tgt.obj o) (PKey.prop k)) ∧
    (st.store o k ≠ some v →
      Ev.ran C ∈ (reactiveSet f st o k v).log ∨
      Ev.sched C ∈ (reactiveSet f st o k v).log) ∧
    (st.store o k = some v → (reactiveSet f st o k v).log = st.log) := by
  obtain ⟨l1, l2, hsplit⟩ := List.append_of_mem hmem
  have hlen : (st.deps (Tgt.obj o) (PKey.prop k)).length = l1.length + 1 + l2.length := by
    rw [hsplit]
    simp
    omega
  refine ⟨fun s hs => track_subscribes s _ _ C hs, ?_, ?_⟩
  · intro hne
    obtain ⟨g, rfl⟩ : ∃ g, f = g + 1 := ⟨f - 1, by omega⟩
    show Ev.ran C ∈ (execStep (exec g) st (Act.setK o k v)).log ∨
      Ev.sched C ∈ (execStep (exec g) st (Act.setK o k v)).log
    simp only [execStep]
    rw [if_pos hne]
    obtain ⟨g2, rfl⟩ : ∃ g2, g = g2 + 1 := ⟨g - 1, by omega⟩
    show Ev.ran C ∈ (execStep (exec g2) _ (Act.trig (Tgt.obj o) (PKey.prop k))).log ∨
      Ev.sched C ∈ (execStep (exec g2) _ (Act.trig (Tgt.obj o) (PKey.prop k))).log
    simp only [execStep]
    exact loop_notifies l1 g2 _ C l2 _ hsplit hstk heff (by omega)
  · intro heq
    obtain ⟨g, rfl⟩ : ∃ g, f = g + 1 := ⟨f - 1, by omega⟩
    show (execStep (exec g) st (Act.setK o k v)).log = st.log
    simp only [execStep]
    rw [if_neg (by simpa using heq)]

/-- Witness for C1: effect 0 is subscribed to `(0, 0)` holding 5; writing 6
notifies it. -/
theorem track_trigger_closure_witness :
    Ev.ran 0 ∈ (reactiveSet 10 stC1 0 0 6).log ∨
    Ev.sched 0 ∈ (reactiveSet 10 stC1 0 0 6).log :=
  (track_trigger_closure 10 stC1 0 0 6 0 (by decide) (by decide) (by decide)
    (by decide)).2.1 (by decide)

/-- Claim C6: a write to `O.K` performed from inside computation `C`'s own
execution never causes `C` to re-run itself (or have its scheduler invoked)
within that same execution: the trigger loop skips the subscriber that is the
currently running computation.  First conjunct: the skip in general — when the
snapshot element equals the active effect, the loop step does nothing.
Second conjunct: an effect that reads `(0,0)` and then writes that same
property from inside its own run produces exactly one function invocation,
both when the written value differs and when it is unchanged. -/
theorem self_trigger_immunity :
    (∀ (f : Nat) (st : St) (C : EffId) (rest : List EffId),
      st.stack.head? = some C →
      exec (f + 1) st (Act.loop (C :: rest)) = exec f st (Act.loop rest)) ∧
    ((selfRun 0 1).log = [Ev.ran 0] ∧ (selfRun 5 5).log = [Ev.ran 0]) := by
  constructor
  · intro f st C rest h
    show execStep (exec f) st (Act.loop (C :: rest)) = exec f st (Act.loop rest)
    simp only [execStep, h, if_pos]
  · decide

/-- Witness for C6: the skip step on a concrete state with effect 0 active. -/
theorem self_trigger_immunity_witness :
    exec 3 { st0 with stack := [0] } (Act.loop [0, 1]) =
      exec 2 { st0 with stack := [0] } (Act.loop [1]) :=
  self_trigger_immunity.1 2 { st0 with stack := [0] } 0 [1] (by decide)

/-- Claim C2: subscriptions are cleared and rebuilt on every re-run.  First
conjunct: in general, `cleanupEffect` (invoked at the start of every active
run) empties the effect's subscription list and removes the effect from every
dependency set it was recorded in.  Second conjunct: the branching effect
reads `(0,1)` on run N (condition true), so it is subscribed to it; after the
write that makes run N+1 skip that read, the subscription to `(0,1)` is gone
(while `(0,0)` was rebuilt), and a later write to `(0,1)` adds no event to
the log — the effect is neither re-run nor re-scheduled. -/
theorem stale_dependency_pruning :
    (∀ (st : St) (e : EffId) (d : EffectData) (t : Tgt) (k : PKey),
      st.effs e = some d →
      (cleanupEffect st e).effs e = some { d with deps := [] } ∧
      ((t, k) ∈ d.deps → e ∉ (cleanupEffect st e).deps t k)) ∧
    (0 ∈ (branchRun1 7).deps (Tgt.obj 0) (PKey.prop 1) ∧
     (branchRun2 7).deps (Tgt.obj 0) (PKey.prop 1) = [] ∧
     (branchRun2 7).deps (Tgt.obj 0) (PKey.prop 0) = [0] ∧
     (branchWrite 7 9).log = (branchRun2 7).log ∧
     (branchWrite 7 9).store 0 1 = some 9) := by
  constructor
  · intro st e d t k hd
    unfold cleanupEffect
    rw [hd]
    constructor
    · simp
    · intro hm
      simp only [if_pos rfl, hm, if_true]
      intro hmem
      simp at hmem
  · decide

/-- Witness for C2: clearing effect 0 in `stC1` removes its recorded
subscription to `(0, 0)`. -/
theorem stale_dependency_pruning_witness :
    0 ∉ (cleanupEffect stC1 0).deps (Tgt.obj 0) (PKey.prop 0) :=
  (stale_dependency_pruning.1 stC1 0
      { body := Body.skip, scheduler := none, active := true,
        deps := [(Tgt.obj 0, PKey.prop 0)] }
      (Tgt.obj 0) (PKey.prop 0) rfl).2 (by decide)

/-- Claim C3: reading a computed twice with no intervening dependency change
invokes the getter exactly once (the second read returns the cached value);
changing the tracked dependency and reading again brings the total getter
invocation count to exactly two (and yields the new value). -/
theorem computed_idempotent_caching :
    countEv (compRead2 (fun x => 2 * x) 1).log (Ev.ran 0) = 1 ∧
    (compRead2 (fun x => 2 * x) 1).ret = 2 ∧
    (compRead1 (fun x => 2 * x) 1).ret = 2 ∧
    countEv (compRead3 (fun x => 2 * x) 1 2).log (Ev.ran 0) = 2 ∧
    (compRead3 (fun x => 2 * x) 1 2).ret = 4 := by
  decide

/-- Claim C7: after a clean read, the first upstream notification flips the
computed to dirty and triggers its own value dependency exactly once; a second
upstream notification arriving while the computed is already dirty is
absorbed, so two scheduler invocations yield one downstream trigger total. -/
theorem computed_dirty_coalescing :
    countEv (coalesceW1 (fun x => 2 * x) 1 2).log (Ev.dirtyTrig 0) = 1 ∧
    countEv (coalesceW2 (fun x => 2 * x) 1 2 3).log (Ev.dirtyTrig 0) = 1 ∧
    countEv (coalesceW2 (fun x => 2 * x) 1 2 3).log (Ev.sched 0) = 2 := by
  decide

theorem countEv_append (l1 l2 : List Ev) (x : Ev) :
    countEv (l1 ++ l2) x = countEv l1 x + countEv l2 x := by
  simp [countEv, List.filter_append]

theorem notifyCount_append (l1 l2 : List Ev) (C : EffId) :
    notifyCount (l1 ++ l2) C = notifyCount l1 C + notifyCount l2 C := by
  simp only [notifyCount, countEv_append]
  omega

theorem notifyCount_single_ran (l : List Ev) (e C : EffId) (h : e ≠ C) :
    notifyCount (l ++ [Ev.ran e]) C = notifyCount l C := by
  simp [notifyCount_append, notifyCount, countEv, h]

theorem notifyCount_single_sched (l : List Ev) (e C : EffId) (h : e ≠ C) :
    notifyCount (l ++ [Ev.sched e]) C = notifyCount l C := by
  simp [notifyCount_append, notifyCount, countEv, h]

theorem notifyCount_single_dirty (l : List Ev) (c : Nat) (C : EffId) :
    notifyCount (l ++ [Ev.dirtyTrig c]) C = notifyCount l C := by
  simp [notifyCount_append, notifyCount, countEv]

theorem track_symOnly (st : St) (t : Tgt) (k : PKey) (C : EffId)
    (h : symOnly st C) : symOnly (track st t k) C := by
  obtain ⟨h1, h2, h3⟩ := h
  unfold track
  cases hh : st.stack.head? with
  | none => exact ⟨h1, h2, h3⟩
  | some a =>
    have haC : a ≠ C := by
      intro he
      exact h1 (he ▸ List.mem_of_mem_head? hh)
    simp only
    split
    · exact ⟨h1, h2, h3⟩
    · refine ⟨h1, ?_, h3⟩
      intro t2 k2 hm
      simp only at hm
      by_cases hc : t2 = t ∧ k2 = k
      · rw [if_pos hc] at hm
        rcases List.mem_append.mp hm with hm2 | hm2
        · obtain ⟨n, hn⟩ := h2 t k hm2
          exact ⟨n, by rw [hc.2]; exact hn⟩
        · exact absurd (List.mem_singleton.mp hm2).symm haC
      · rw [if_neg hc] at hm
        exact h2 t2 k2 hm

theorem cleanupEffect_symOnly (st : St) (e : EffId) (C : EffId)
    (h : symOnly st C) : symOnly (cleanupEffect st e) C := by
  obtain ⟨h1, h2, h3⟩ := h
  unfold cleanupEffect
  cases st.effs e with
  | none => exact ⟨h1, h2, h3⟩
  | some d =>
    refine ⟨h1, ?_, h3⟩
    intro t2 k2 hm
    simp only at hm
    by_cases hc : (t2, k2) ∈ d.deps
    · rw [if_pos hc] at hm
      exact h2 t2 k2 (List.mem_of_mem_filter hm)
    · rw [if_neg hc] at hm
      exact h2 t2 k2 hm

theorem execStep_symOnly (recur : St → Act → St)
    (hr : ∀ st a C, symOnly st C → actSafe C a →
      symOnly (recur st a) C ∧
      notifyCount (recur st a).log C = notifyCount st.log C)
    (st : St) (a : Act) (C : EffId) (h : symOnly st C) (ha : actSafe C a) :
    symOnly (execStep recur st a) C ∧
    notifyCount (execStep recur st a).log C = notifyCount st.log C := by
  cases a with
  | runB b =>
    induction b generalizing st with
    | skip => exact ⟨h, rfl⟩
    | readKey o k rest ihr =>
      have ht := track_symOnly st (.obj o) (.prop k) C h
      have h2 := hr (track st (.obj o) (.prop k)) (.runB rest) C ht trivial
      refine ⟨h2.1, ?_⟩
      rw [execStep, h2.2, track_log]
    | readIf o k bt be ih1 ih2 =>
      have ht := track_symOnly st (.obj o) (.prop k) C h
      simp only [execStep]
      split
      · have h2 := hr (track st (.obj o) (.prop k)) (.runB bt) C ht trivial
        refine ⟨h2.1, ?_⟩
        rw [h2.2, track_log]
      · have h2 := hr (track st (.obj o) (.prop k)) (.runB be) C ht trivial
        refine ⟨h2.1, ?_⟩
        rw [h2.2, track_log]
    | writeKey o k v rest ihr =>
      have h2 := hr st (.setK o k v) C h trivial
      have h3 := hr (recur st (.setK o k v)) (.runB rest) C h2.1 trivial
      exact ⟨h3.1, by rw [execStep, h3.2, h2.2]⟩
    | delKey o k rest ihr =>
      have h2 := hr st (.delK o k) C h trivial
      have h3 := hr (recur st (.delK o k)) (.runB rest) C h2.1 trivial
      exact ⟨h3.1, by rw [execStep, h3.2, h2.2]⟩
    | ownKeys o rest ihr =>
      have ht : symOnly (reactiveOwnKeys st o) C := by
        refine track_symOnly _ _ _ C ?_
        exact ⟨h.1, h.2.1, h.2.2⟩
      have h2 := hr (reactiveOwnKeys st o) (.runB rest) C ht trivial
      refine ⟨h2.1, ?_⟩
      rw [execStep, h2.2, reactiveOwnKeys, track_log]
    | readComputed c rest ihr =>
      have h2 := hr st (.compGet c) C h trivial
      have h3 := hr (recur st (.compGet c)) (.runB rest) C h2.1 trivial
      exact ⟨h3.1, by rw [execStep, h3.2, h2.2]⟩
    | retRead o k g =>
      have ht := track_symOnly st (.obj o) (.prop k) C h
      refine ⟨⟨ht.1, ht.2.1, ht.2.2⟩, ?_⟩
      show notifyCount (track st (Tgt.obj o) (PKey.prop k)).log C = _
      rw [track_log]
  | setK o k v =>
    simp only [execStep]
    split
    · have h2 := hr { st with store := fun o2 k2 => if o2 = o ∧ k2 = k then some v else st.store o2 k2 } (Act.trig (Tgt.obj o) (PKey.prop k)) C ⟨h.1, h.2.1, h.2.2⟩ (by intro n; simp [actSafe])
      exact h2
    · exact ⟨h, rfl⟩
  | delK o k =>
    simp only [execStep]
    split
    · have h2 := hr { st with store := fun o2 k2 => if o2 = o ∧ k2 = k then none else st.store o2 k2 } (Act.trig (Tgt.obj o) (PKey.prop k)) C ⟨h.1, h.2.1, h.2.2⟩ (by intro n; simp [actSafe])
      exact h2
    · exact ⟨h, rfl⟩
  | trig t k =>
    have hknot : C ∉ st.deps t k := by
      intro hm
      obtain ⟨n, hn⟩ := h.2.1 t k hm
      exact ha n hn
    exact hr st (.loop (st.deps t k)) C h hknot
  | loop snap =>
    cases snap with
    | nil => exact ⟨h, rfl⟩
    | cons e rest =>
      have heC : e ≠ C := fun he => ha (he ▸ List.mem_cons_self e rest)
      have hrest : C ∉ rest := fun hm => ha (List.mem_cons_of_mem e hm)
      simp only [execStep]
      split
      · exact hr st (.loop rest) C h hrest
      · split
        · exact hr st (.loop rest) C h hrest
        · split
          · have h2 := hr st (.schedOf e) C h heC
            have h3 := hr (recur st (.schedOf e)) (.loop rest) C h2.1 hrest
            exact ⟨h3.1, by rw [h3.2, h2.2]⟩
          · have h2 := hr st (.runE e) C h heC
            have h3 := hr (recur st (.runE e)) (.loop rest) C h2.1 hrest
            exact ⟨h3.1, by rw [h3.2, h2.2]⟩
  | schedOf e =>
    have heC : e ≠ C := ha
    simp only [execStep]
    split
    · exact ⟨h, rfl⟩
    · split
      · exact ⟨⟨h.1, h.2.1, h.2.2⟩, notifyCount_single_sched _ e C heC⟩
      · exact ⟨⟨h.1, h.2.1, h.2.2⟩, notifyCount_single_sched _ e C heC⟩
      · rename_i c _
        split
        · exact ⟨⟨h.1, h.2.1, h.2.2⟩, notifyCount_single_sched _ e C heC⟩
        next cd hcd =>
          split
          · exact ⟨⟨h.1, h.2.1, h.2.2⟩, notifyCount_single_sched _ e C heC⟩
          · have hsym : symOnly { st with
                comps := fun x => if x = c then some { cd with dirty := true } else st.comps x,
                log := st.log ++ [Ev.sched e] ++ [Ev.dirtyTrig c] } C := by
              refine ⟨h.1, h.2.1, ?_⟩
              intro c2 cd2 hm
              simp only at hm
              by_cases hc : c2 = c
              · rw [if_pos hc, Option.some_inj] at hm
                have := h.2.2 c cd hcd
                rw [← hm]
                exact this
              · rw [if_neg hc] at hm
                exact h.2.2 c2 cd2 hm
            have h2 := hr _ (Act.trig (Tgt.comp c) PKey.value) C hsym (by intro n; simp [actSafe])
            refine ⟨h2.1, ?_⟩
            rw [h2.2]
            show notifyCount (st.log ++ [Ev.sched e] ++ [Ev.dirtyTrig c]) C = _
            rw [notifyCount_single_dirty, notifyCount_single_sched _ e C heC]
  | runE e =>
    have heC : e ≠ C := ha
    simp only [execStep]
    split
    · exact ⟨h, rfl⟩
    next d hd =>
      split
      · have hs1 : symOnly { st with stack := e :: st.stack, log := st.log ++ [Ev.ran e] } C := by
          refine ⟨?_, h.2.1, h.2.2⟩
          intro hm
          rcases List.mem_cons.mp hm with he | hm2
          · exact heC he.symm
          · exact h.1 hm2
        have hs2 := cleanupEffect_symOnly _ e C hs1
        have h2 := hr (cleanupEffect { st with stack := e :: st.stack, log := st.log ++ [Ev.ran e] } e) (.runB d.body) C hs2 trivial
        refine ⟨⟨?_, h2.1.2.1, h2.1.2.2⟩, ?_⟩
        · intro hm
          exact h2.1.1 (List.mem_of_mem_tail hm)
        · show notifyCount (recur _ (Act.runB d.body)).log C = _
          rw [h2.2, cleanupEffect_log]
          exact notifyCount_single_ran _ e C heC
      · have hs1 : symOnly { st with log := st.log ++ [Ev.ran e] } C :=
          ⟨h.1, h.2.1, h.2.2⟩
        have h2 := hr { st with log := st.log ++ [Ev.ran e] } (.runB d.body) C hs1 trivial
        refine ⟨h2.1, ?_⟩
        rw [h2.2]
        exact notifyCount_single_ran _ e C heC
  | compGet c =>
    simp only [execStep]
    split
    · exact ⟨h, rfl⟩
    next cd hcd =>
      have ht := track_symOnly st (.comp c) .value C h
      have heffC : cd.eff ≠ C := h.2.2 c cd hcd
      split
      · have h2 := hr (track st (Tgt.comp c) PKey.value) (Act.runE cd.eff) C ht heffC
        split
        · exact ⟨h2.1, by rw [h2.2, track_log]⟩
        next cd2 hcd2 =>
          refine ⟨⟨h2.1.1, h2.1.2.1, ?_⟩, ?_⟩
          · intro c2 cd3 hm
            simp only at hm
            by_cases hc : c2 = c
            · rw [if_pos hc, Option.some_inj] at hm
              have := h2.1.2.2 c cd2 hcd2
              rw [← hm]
              exact this
            · rw [if_neg hc] at hm
              exact h2.1.2.2 c2 cd3 hm
          · show notifyCount (recur (track st (Tgt.comp c) PKey.value) (Act.runE cd.eff)).log C = _
            rw [h2.2, track_log]
      · refine ⟨⟨ht.1, ht.2.1, ht.2.2⟩, ?_⟩
        show notifyCount (track st (Tgt.comp c) PKey.value).log C = _
        rw [track_log]

theorem exec_symOnly (f : Nat) (st : St) (a : Act) (C : EffId)
    (h : symOnly st C) (ha : actSafe C a) :
    symOnly (exec f st a) C ∧
    notifyCount (exec f st a).log C = notifyCount st.log C := by
  induction f generalizing st a C with
  | zero => exact ⟨h, rfl⟩
  | succ g ih => exact execStep_symOnly (exec g) ih st a C h ha

/-- Counterexample to claim C5: effect 0 enumerates the keys of object 0 and
is subscribed under the freshly allocated synthetic key `sym 0`; afterwards a
key is added (property 5) and a key is removed (property 3), yet the final log
still contains only the effect's initial run — the enumeration subscriber is
neither re-run nor re-scheduled by either operation. -/
theorem ownKeys_enumeration_counterexample :
    0 ∈ enumRun.deps (Tgt.obj 0) (PKey.sym 0) ∧
    enumAdd.store 0 5 = some 1 ∧
    enumDel.store 0 3 = none ∧
    enumDel.log = [Ev.ran 0] := by
  decide

/-- Claim C5 (amended): enumerating a reactive object's own keys inside a
running computation subscribes it under a freshly allocated synthetic key,
but since the set and deleteProperty traps only ever trigger the written or
deleted property key (and the computed scheduler only the `'value'` key), a
computation whose subscriptions are all under synthetic keys is never
notified: later key additions, writes or removals add no run or scheduler
event for it. -/
theorem ownKeys_enumeration_amended :
    (∀ (st : St) (o : Obj) (C : EffId), st.stack.head? = some C →
      C ∈ (reactiveOwnKeys st o).deps (Tgt.obj o) (PKey.sym st.nextSym)) ∧
    (∀ (f : Nat) (st : St) (C : EffId) (o k : Nat) (v : Val), symOnly st C →
      notifyCount (reactiveSet f st o k v).log C = notifyCount st.log C) ∧
    (∀ (f : Nat) (st : St) (C : EffId) (o k : Nat), symOnly st C →
      notifyCount (reactiveDelete f st o k).log C = notifyCount st.log C) := by
  refine ⟨?_, ?_, ?_⟩
  · intro st o C hh
    exact track_subscribes { st with nextSym := st.nextSym + 1 } (Tgt.obj o)
      (PKey.sym st.nextSym) C hh
  · intro f st C o k v h
    exact (exec_symOnly f st (Act.setK o k v) C h trivial).2
  · intro f st C o k h
    exact (exec_symOnly f st (Act.delK o k) C h trivial).2

/-- Witness for the amended C5: a state where effect 0 is subscribed only
under the synthetic key; a write to property 0 notifies nothing. -/
theorem ownKeys_enumeration_amended_witness :
    notifyCount (reactiveSet 5 stSym 0 0 1).log 0 = notifyCount stSym.log 0 :=
  ownKeys_enumeration_amended.2.1 5 stSym 0 0 0 1 (by
    refine ⟨by simp [stSym, st0], ?_, ?_⟩
    · intro t k hm
      simp only [stSym] at hm
      split at hm
      · next hc => exact ⟨0, hc.2⟩
      · simp at hm
    · intro c cd hm
      simp [stSym, st0] at hm)

/-- Claim C4: for an old keyed child list `[A, B, C]` and a new list `[A, C]`
(`B` not matching `C`), the keyed diff patches `A` and `C` in place and
unmounts exactly `B`, performing no mounts.  (`patchKeyedChildren` is
modelled from the spec because renderer.ts is not under src/.) -/
theorem keyed_diff_boundary (A B C : VNode) (hBC : isSameVNodeType B C = false) :
    patchKeyedChildren [A, B, C] [A, C] =
      [DiffAct.patch A A, DiffAct.patch C C, DiffAct.unmount B] := by
  simp [patchKeyedChildren, headLoop, tailLoop, unmountRange, mountRange,
    isSameVNodeType_self, hBC]

/-- Witness for C4: concrete childless `li` nodes keyed a, b, c. -/
theorem keyed_diff_boundary_witness :
    patchKeyedChildren
        [createVNode (VType.tag "li") (some [("key", JsVal.str "a")]) none,
         createVNode (VType.tag "li") (some [("key", JsVal.str "b")]) none,
         createVNode (VType.tag "li") (some [("key", JsVal.str "c")]) none]
        [createVNode (VType.tag "li") (some [("key", JsVal.str "a")]) none,
         createVNode (VType.tag "li") (some [("key", JsVal.str "c")]) none] =
      [DiffAct.patch (createVNode (VType.tag "li") (some [("key", JsVal.str "a")]) none)
         (createVNode (VType.tag "li") (some [("key", JsVal.str "a")]) none),
       DiffAct.patch (createVNode (VType.tag "li") (some [("key", JsVal.str "c")]) none)
         (createVNode (VType.tag "li") (some [("key", JsVal.str "c")]) none),
       DiffAct.unmount (createVNode (VType.tag "li") (some [("key", JsVal.str "b")]) none)] :=
  keyed_diff_boundary _ _ _ (by simp [isSameVNodeType, createVNode, vnodeKey,
    VNode.key, VNode.ty, truthy, List.lookup])

end MiniVue
